import Mathlib

/-!
Verification of the stm32sprog STM32 serial programmer against its
specification.  The development shallowly embeds the C sources:

* `sparse-buffer.c` — the sparse firmware image (a skip list of merged
  memory blocks).  Machine `size_t` values are embedded as `Nat`; additions
  that the C performs in `size_t` are reduced modulo `sizeMod = 2 ^ 64`
  exactly where the spec's no-overflow invariant does not already discharge
  them (the overlap predicate and the global offset shift).  The skip list
  is embedded with every node at height 1, a legal run of `randomHeight`
  under which the level-by-level search of `SparseBuffer_set` degenerates
  to the level-0 walk along the sorted node list.
* `serial.c` — `serialRead`, embedded over an explicit trace of results of
  the underlying `read` system call.
* `stm32sprog.c` — the bootloader protocol driver: handshake, write-block
  framing and page-erase command emission, embedded as functions from the
  inputs (and an acknowledgement oracle where the device answers) to the
  emitted byte traces.
-/

/-- Wrap-around bound of the C `size_t` type (64-bit hosts). -/
def sizeMod : Nat := 2 ^ 64

/-- One memory block of the sparse image (`struct MemBlock`): an offset in
the target address space and the byte values stored there.  The C `length`
field is `data.length`; the C invariant (spec §3) is that
`offset + length` does not overflow `size_t`. -/
structure MemBlock where
  offset : Nat
  data : List Nat
  deriving Repr, DecidableEq

/-- Length of a block in bytes (the C `length` field). -/
def MemBlock.length (b : MemBlock) : Nat := b.data.length

/-- The merge test of `sparse-buffer.c` (`overlap`): both block ends are
computed in `size_t` (hence the reduction modulo `sizeMod`) and the four
inclusive interval conditions of the source are or-ed together. -/
def overlap (block1 block2 : MemBlock) : Bool :=
  let end1 := (block1.offset + block1.length) % sizeMod
  let end2 := (block2.offset + block2.length) % sizeMod
  ((block2.offset ≤ block1.offset) && (block1.offset ≤ end2)) ||
    ((block2.offset ≤ end1) && (end1 ≤ end2)) ||
    ((block1.offset ≤ block2.offset) && (block2.offset ≤ end1)) ||
    ((block1.offset ≤ end2) && (end2 ≤ end1))

/-- C8.  The merge/overlap predicate of `sparse-buffer.c` returns `true`
exactly on blocks whose closed intervals touch or overlap in the
gap-closing sense (`a ≤ b + lb` and `b ≤ a + la`), provided both
`offset + length` sums stay below `2 ^ 64` so that the `size_t` end
computations do not wrap. -/
theorem c8_overlap_iff_touching (b1 b2 : MemBlock)
    (h1 : b1.offset + b1.length < sizeMod) (h2 : b2.offset + b2.length < sizeMod) :
    overlap b1 b2 = true ↔
      (b1.offset ≤ b2.offset + b2.length ∧ b2.offset ≤ b1.offset + b1.length) := by
  unfold overlap
  rw [Nat.mod_eq_of_lt h1, Nat.mod_eq_of_lt h2]
  simp only [Bool.or_eq_true, Bool.and_eq_true, decide_eq_true_eq]
  omega

/-- C8 witness: concrete touching blocks, evaluated. -/
theorem c8_overlap_iff_touching_witness :
    overlap ⟨0, [1, 2]⟩ ⟨2, [3]⟩ = true ↔
      ((0 : Nat) ≤ 2 + 1 ∧ (2 : Nat) ≤ 0 + 2) := by
  have h := c8_overlap_iff_touching ⟨0, [1, 2]⟩ ⟨2, [3]⟩ (by decide) (by decide)
  simpa [MemBlock.length] using h

/-- The merge of an incoming block into an existing node (`Node_addData`,
non-NULL branch; the NULL branch, taken only on a freshly created node,
simply stores a copy of the incoming block and is inlined at the single
call site in `SparseBuffer_set` below).  The branch structure follows the
source: if the incoming block starts at or after the node, the node keeps
its offset, is grown when the incoming block reaches past its end, and the
incoming bytes are copied over the positions they cover; otherwise the node
is re-based at the incoming offset, the old bytes that survive past the
incoming block's end are kept, and the incoming bytes are copied at the
front.  `size_t` arithmetic is embedded as `Nat`: under the source's
`assert(overlap(block, self->block))` and the spec's no-overflow invariant
none of the additions wrap and none of the subtractions go below zero. -/
def Node_addData (self block : MemBlock) : MemBlock :=
  let e := block.offset + block.length
  let nodeEnd := self.offset + self.length
  if self.offset ≤ block.offset then
    let diff := block.offset - self.offset
    { offset := self.offset
      data := self.data.take diff ++ block.data ++ self.data.drop (diff + block.length) }
  else if e < nodeEnd then
    { offset := block.offset
      data := block.data ++ self.data.drop (e - self.offset) }
  else
    { offset := block.offset, data := block.data }

/-- The insertion walk of `SparseBuffer_set` over the node list (all nodes
at height 1, so the skip-list search is the level-0 walk).  In source
order: if the walk runs past the last node the new block becomes a new
node; if the incoming block overlaps the next node it is merged into that
node and the single following node is checked once and absorbed if it now
overlaps the merged node; if the incoming block starts after the next node
the walk advances; otherwise a new node is inserted before the next
node. -/
def setGo : List MemBlock → MemBlock → List MemBlock
  | [], block => [block]
  | next :: rest, block =>
    if overlap block next then
      let merged := Node_addData next block
      match rest with
      | [] => [merged]
      | node :: rest2 =>
        if overlap node merged then Node_addData merged node :: rest2
        else merged :: node :: rest2
    else if next.offset < block.offset then
      next :: setGo rest block
    else
      block :: next :: rest

/-- The sparse buffer (`struct SparseBuffer`): the begin sentinel node's
block offset (`sent`; its data is NULL/empty), the real nodes in list
order, the cursor node (`curr`, an index into the sentinel-headed node
list: 0 is the sentinel, `i + 1` is `blocks[i]`) and the cursor byte
offset. -/
structure SparseBuffer where
  sent : Nat
  blocks : List MemBlock
  curr : Nat
  offset : Nat
  deriving Repr, DecidableEq

/-- The begin sentinel's block: offset `sent`, no data. -/
def sentBlock (s : SparseBuffer) : MemBlock := ⟨s.sent, []⟩

/-- `SparseBuffer_create`: empty node list, cursor on the sentinel. -/
def SparseBuffer_create : SparseBuffer := ⟨0, [], 0, 0⟩

/-- `SparseBuffer_set`: run the insertion walk on the node list.  The
cursor fields are not touched by the C function. -/
def SparseBuffer_set (s : SparseBuffer) (block : MemBlock) : SparseBuffer :=
  { s with blocks := setGo s.blocks block }

/-- Addition of a `ptrdiff_t` delta to a `size_t` value, wrapping as the C
`+=` does. -/
def wrapAdd (x : Nat) (delta : Int) : Nat :=
  (((x : Int) + delta) % (sizeMod : Int)).toNat

/-- `SparseBuffer_offset`: add `delta` to the offset of every node's block
(the sentinel included) and to the cursor offset. -/
def SparseBuffer_offset (s : SparseBuffer) (delta : Int) : SparseBuffer :=
  { sent := wrapAdd s.sent delta
    blocks := s.blocks.map fun b => { b with offset := wrapAdd b.offset delta }
    curr := s.curr
    offset := wrapAdd s.offset delta }

/-- Length clamping of `SparseBuffer_read`: a request of 0 or one that
would cross the block end is clamped to the bytes left in the block. -/
def readLen (blk : MemBlock) (offset length : Nat) : Nat :=
  if length = 0 ∨ blk.offset + blk.length < offset + length then
    blk.offset + blk.length - offset
  else length

/-- Shared tail of `SparseBuffer_read` once the node to read from is known:
clamp the requested length, hand out the bytes from the cursor position and
advance the cursor. -/
def readCore (s : SparseBuffer) (node : Nat) (blk : MemBlock) (offset length : Nat) :
    MemBlock × SparseBuffer :=
  (⟨offset, (blk.data.drop (offset - blk.offset)).take (readLen blk offset length)⟩,
    { s with curr := node, offset := offset + readLen blk offset length })

/-- `SparseBuffer_read`: read up to `length` bytes at the cursor, never
crossing a block boundary.  If the cursor sits at or past the end of its
node's block, advance to the next node first; with no next node return the
NULL sentinel result (embedded as empty data) and leave the cursor alone.
The `none` case of the first lookup is unreachable: in the C code `curr`
always points at a live node. -/
def SparseBuffer_read (s : SparseBuffer) (length : Nat) : MemBlock × SparseBuffer :=
  match (sentBlock s :: s.blocks).get? s.curr with
  | none => (⟨0, []⟩, s)
  | some blk =>
    if blk.offset + blk.length ≤ s.offset then
      match (sentBlock s :: s.blocks).get? (s.curr + 1) with
      | none => (⟨0, []⟩, s)
      | some blk2 => readCore s (s.curr + 1) blk2 blk2.offset length
    else
      readCore s s.curr blk s.offset length

/-- `SparseBuffer_size`: sum of the node block lengths. -/
def SparseBuffer_size (s : SparseBuffer) : Nat :=
  s.blocks.foldl (fun acc b => acc + b.length) 0

/-- `SparseBuffer_rewind`: cursor back to the begin sentinel, cursor offset
to the sentinel block's offset. -/
def SparseBuffer_rewind (s : SparseBuffer) : SparseBuffer :=
  { s with curr := 0, offset := s.sent }

/-- Byte stored at address `a` by a list of blocks: the first block whose
range contains `a` answers. -/
def blocksByte : List MemBlock → Nat → Option Nat
  | [], _ => none
  | b :: bs, a =>
    if b.offset ≤ a ∧ a < b.offset + b.length then b.data[a - b.offset]?
    else blocksByte bs a

/-- A full sequence of `SparseBuffer_read` calls, as the driver's write
loop performs it: call `k` requests `ls k` bytes; the loop stops on the
NULL result (embedded as empty data).  `fuel` bounds the number of calls;
any fuel at least the number of stored bytes plus one drains the buffer
completely. -/
def drainFrom (ls : Nat → Nat) : Nat → Nat → SparseBuffer → List MemBlock
  | 0, _, _ => []
  | fuel + 1, k, s =>
    if (SparseBuffer_read s (ls k)).1.data = [] then []
    else (SparseBuffer_read s (ls k)).1 ::
      drainFrom ls fuel (k + 1) (SparseBuffer_read s (ls k)).2

/-- Merging two touching/overlapping blocks covers exactly the union of
the two intervals. -/
theorem addData_extent (w1 w2 : MemBlock)
    (h21 : w2.offset ≤ w1.offset + w1.data.length)
    (h12 : w1.offset ≤ w2.offset + w2.data.length) :
    (Node_addData w1 w2).offset = min w1.offset w2.offset ∧
      (Node_addData w1 w2).data.length =
        max (w1.offset + w1.data.length) (w2.offset + w2.data.length) -
          min w1.offset w2.offset := by
  simp only [Node_addData, MemBlock.length]
  split_ifs with hof hend <;> dsimp only <;>
    (try simp only [List.length_append, List.length_take, List.length_drop]) <;>
    constructor <;> omega

/-- At every address covered by both blocks, the merged block holds the
byte of the block merged in second (later write wins). -/
theorem addData_overlap_byte (w1 w2 : MemBlock)
    (h21 : w2.offset ≤ w1.offset + w1.data.length) (a : Nat)
    (ha1 : w1.offset ≤ a) (ha2 : w2.offset ≤ a)
    (hb2 : a < w2.offset + w2.data.length) :
    (Node_addData w1 w2).data[a - (Node_addData w1 w2).offset]? =
      w2.data[a - w2.offset]? := by
  simp only [Node_addData, MemBlock.length]
  split_ifs with hof hend <;> dsimp only
  · -- w1.offset ≤ w2.offset: the node keeps its offset
    have htk : (w1.data.take (w2.offset - w1.offset)).length = w2.offset - w1.offset := by
      rw [List.length_take]; omega
    rw [List.append_assoc,
      List.getElem?_append_right (by rw [htk]; omega), htk,
      List.getElem?_append_left (by omega)]
    congr 1
    omega
  · -- w2.offset < w1.offset, incoming block ends inside the node
    rw [List.getElem?_append_left (by omega)]

/-- One step plus induction: draining a buffer holding exactly one block,
with the cursor inside the block, yields chunks that reproduce every
remaining byte of that block at its address. -/
theorem drain_one_block (ls : Nat → Nat) (sent : Nat) (m : MemBlock) :
    ∀ fuel k p a, m.offset ≤ p → p ≤ a → a < m.offset + m.data.length →
      m.offset + m.data.length - p ≤ fuel →
      blocksByte (drainFrom ls fuel k ⟨sent, [m], 1, p⟩) a = m.data[a - m.offset]? := by
  intro fuel
  induction fuel with
  | zero => intro k p a h1 h2 h3 h4; exfalso; omega
  | succ fuel ih =>
    intro k p a h1 h2 h3 h4
    have hread : SparseBuffer_read ⟨sent, [m], 1, p⟩ (ls k)
        = readCore ⟨sent, [m], 1, p⟩ 1 m p (ls k) := by
      show (match (sentBlock ⟨sent, [m], 1, p⟩ :: [m]).get? 1 with
        | none => ((⟨0, []⟩ : MemBlock), (⟨sent, [m], 1, p⟩ : SparseBuffer))
        | some blk =>
          if blk.offset + blk.length ≤ p then
            match (sentBlock ⟨sent, [m], 1, p⟩ :: [m]).get? 2 with
            | none => ((⟨0, []⟩ : MemBlock), (⟨sent, [m], 1, p⟩ : SparseBuffer))
            | some blk2 => readCore ⟨sent, [m], 1, p⟩ 2 blk2 blk2.offset (ls k)
          else readCore ⟨sent, [m], 1, p⟩ 1 m p (ls k)) = _
      rw [show (sentBlock ⟨sent, [m], 1, p⟩ :: [m]).get? 1 = some m from rfl]
      show (if m.offset + m.length ≤ p then _ else _) = _
      rw [if_neg (by unfold MemBlock.length; omega)]
    obtain ⟨len, hlen1, hlen2, hcore⟩ : ∃ len, 1 ≤ len ∧ p + len ≤ m.offset + m.data.length ∧
        readCore ⟨sent, [m], 1, p⟩ 1 m p (ls k)
          = (⟨p, (m.data.drop (p - m.offset)).take len⟩, ⟨sent, [m], 1, p + len⟩) := by
      by_cases hc : ls k = 0 ∨ m.offset + m.length < p + ls k
      · have hl : readLen m p (ls k) = m.offset + m.data.length - p := by
          unfold readLen
          rw [if_pos hc]
          rfl
        refine ⟨m.offset + m.data.length - p, by omega, by omega, ?_⟩
        unfold readCore
        rw [hl]
      · have hc' := hc
        push_neg at hc'
        unfold MemBlock.length at hc'
        have hl : readLen m p (ls k) = ls k := by
          unfold readLen
          rw [if_neg hc]
        refine ⟨ls k, by omega, by omega, ?_⟩
        unfold readCore
        rw [hl]
    have hchunklen : ((m.data.drop (p - m.offset)).take len).length = len := by
      rw [List.length_take, List.length_drop]; omega
    have hchunkne : ((m.data.drop (p - m.offset)).take len) ≠ [] := by
      intro h
      rw [h] at hchunklen
      simp only [List.length_nil] at hchunklen
      omega
    rw [show drainFrom ls (fuel + 1) k ⟨sent, [m], 1, p⟩
        = if (SparseBuffer_read ⟨sent, [m], 1, p⟩ (ls k)).1.data = [] then []
          else (SparseBuffer_read ⟨sent, [m], 1, p⟩ (ls k)).1 ::
            drainFrom ls fuel (k + 1) (SparseBuffer_read ⟨sent, [m], 1, p⟩ (ls k)).2
        from rfl, hread, hcore]
    simp only
    rw [if_neg hchunkne]
    by_cases ha : a < p + len
    · rw [show blocksByte
          ((⟨p, (m.data.drop (p - m.offset)).take len⟩ : MemBlock) ::
            drainFrom ls fuel (k + 1) ⟨sent, [m], 1, p + len⟩) a
          = if p ≤ a ∧ a < p + ((m.data.drop (p - m.offset)).take len).length then
              ((m.data.drop (p - m.offset)).take len)[a - p]?
            else blocksByte (drainFrom ls fuel (k + 1) ⟨sent, [m], 1, p + len⟩) a
          from rfl]
      rw [if_pos (by rw [hchunklen]; exact ⟨h2, ha⟩)]
      rw [List.getElem?_take_of_lt (by omega), List.getElem?_drop]
      congr 1
      omega
    · rw [show blocksByte
          ((⟨p, (m.data.drop (p - m.offset)).take len⟩ : MemBlock) ::
            drainFrom ls fuel (k + 1) ⟨sent, [m], 1, p + len⟩) a
          = if p ≤ a ∧ a < p + ((m.data.drop (p - m.offset)).take len).length then
              ((m.data.drop (p - m.offset)).take len)[a - p]?
            else blocksByte (drainFrom ls fuel (k + 1) ⟨sent, [m], 1, p + len⟩) a
          from rfl]
      rw [if_neg (by rw [hchunklen]; omega)]
      exact ih (k + 1) (p + len) a (by omega) (by omega) h3 (by omega)

/-- The first read after a rewind advances off the begin sentinel onto the
first real node and then behaves exactly like a read whose cursor already
sits at that node's start. -/
theorem drain_rewound (ls : Nat → Nat) (sent : Nat) (m : MemBlock)
    (hm : m.data ≠ []) (fuel k : Nat) :
    drainFrom ls (fuel + 1) k ⟨sent, [m], 0, sent⟩
      = drainFrom ls (fuel + 1) k ⟨sent, [m], 1, m.offset⟩ := by
  have hmlen : 0 < m.data.length := List.length_pos.mpr hm
  have h1 : SparseBuffer_read ⟨sent, [m], 0, sent⟩ (ls k)
      = readCore ⟨sent, [m], 0, sent⟩ 1 m m.offset (ls k) := by
    show (match (sentBlock ⟨sent, [m], 0, sent⟩ :: [m]).get? 0 with
      | none => ((⟨0, []⟩ : MemBlock), (⟨sent, [m], 0, sent⟩ : SparseBuffer))
      | some blk =>
        if blk.offset + blk.length ≤ sent then
          match (sentBlock ⟨sent, [m], 0, sent⟩ :: [m]).get? 1 with
          | none => ((⟨0, []⟩ : MemBlock), (⟨sent, [m], 0, sent⟩ : SparseBuffer))
          | some blk2 => readCore ⟨sent, [m], 0, sent⟩ 1 blk2 blk2.offset (ls k)
        else readCore ⟨sent, [m], 0, sent⟩ 0 (sentBlock ⟨sent, [m], 0, sent⟩) sent (ls k)) = _
    rw [show (sentBlock ⟨sent, [m], 0, sent⟩ :: [m]).get? 0
        = some (sentBlock ⟨sent, [m], 0, sent⟩) from rfl]
    show (if sent + (0 : Nat) ≤ sent then _ else _) = _
    rw [if_pos (by omega)]
    rfl
  have h2 : SparseBuffer_read ⟨sent, [m], 1, m.offset⟩ (ls k)
      = readCore ⟨sent, [m], 1, m.offset⟩ 1 m m.offset (ls k) := by
    show (match (sentBlock ⟨sent, [m], 1, m.offset⟩ :: [m]).get? 1 with
      | none => ((⟨0, []⟩ : MemBlock), (⟨sent, [m], 1, m.offset⟩ : SparseBuffer))
      | some blk =>
        if blk.offset + blk.length ≤ m.offset then
          match (sentBlock ⟨sent, [m], 1, m.offset⟩ :: [m]).get? 2 with
          | none => ((⟨0, []⟩ : MemBlock), (⟨sent, [m], 1, m.offset⟩ : SparseBuffer))
          | some blk2 => readCore ⟨sent, [m], 1, m.offset⟩ 2 blk2 blk2.offset (ls k)
        else readCore ⟨sent, [m], 1, m.offset⟩ 1 m m.offset (ls k)) = _
    rw [show (sentBlock ⟨sent, [m], 1, m.offset⟩ :: [m]).get? 1 = some m from rfl]
    show (if m.offset + m.length ≤ m.offset then _ else _) = _
    rw [if_neg (by unfold MemBlock.length; omega)]
  have hsame : readCore ⟨sent, [m], 0, sent⟩ 1 m m.offset (ls k)
      = readCore ⟨sent, [m], 1, m.offset⟩ 1 m m.offset (ls k) := rfl
  show (if (SparseBuffer_read ⟨sent, [m], 0, sent⟩ (ls k)).1.data = [] then []
    else (SparseBuffer_read ⟨sent, [m], 0, sent⟩ (ls k)).1 ::
      drainFrom ls fuel (k + 1) (SparseBuffer_read ⟨sent, [m], 0, sent⟩ (ls k)).2) = _
  rw [h1, hsame, ← h2]
  rfl

/-- C2 counterexample.  On a buffer that is not empty the claim fails:
insert `(0, [1, 1])`, then `W1 = (3, [2, 2])`, then `W2 = (1, [3, 3, 3])`
which overlaps `W1` on address 3.  Inserting `W2` merges it into the first
block and the chain-merge step then copies the absorbed older neighbor
`W1`'s bytes over the just-written `W2` bytes, so after a rewind the full
drain of reads returns `W1`'s byte 2 at address 3 where `W2` wrote 3 — the
later write does not win. -/
theorem c2_later_write_wins_counterexample :
    overlap ⟨1, [3, 3, 3]⟩ ⟨3, [2, 2]⟩ = true ∧
      blocksByte (drainFrom (fun _ => 256) 8 0 (SparseBuffer_rewind
        (SparseBuffer_set (SparseBuffer_set (SparseBuffer_set SparseBuffer_create
          ⟨0, [1, 1]⟩) ⟨3, [2, 2]⟩) ⟨1, [3, 3, 3]⟩))) 3 = some 2 ∧
      (⟨1, [3, 3, 3]⟩ : MemBlock).data[3 - 1]? = some 3 ∧
      blocksByte (drainFrom (fun _ => 256) 8 0 (SparseBuffer_rewind
        (SparseBuffer_set (SparseBuffer_set (SparseBuffer_set SparseBuffer_create
          ⟨0, [1, 1]⟩) ⟨3, [2, 2]⟩) ⟨1, [3, 3, 3]⟩))) 3 ≠
        (⟨1, [3, 3, 3]⟩ : MemBlock).data[3 - 1]? := by decide

/-- C2 amended.  On a buffer created empty, insert `w1` then an
overlapping `w2`.  After a rewind, a full sequence of reads (arbitrary
per-call lengths `ls`, enough calls to drain the buffer) delivers `w2`'s
byte at every address lying in both blocks: with no pre-existing neighbor
to chain-merge, the later write wins on the overlap. -/
theorem c2_later_write_wins (w1 w2 : MemBlock) (ls : Nat → Nat) (fuel a : Nat)
    (hov : overlap w2 w1 = true)
    (hno1 : w1.offset + w1.data.length < sizeMod)
    (hno2 : w2.offset + w2.data.length < sizeMod)
    (hfuel : w1.data.length + w2.data.length < fuel)
    (ha1 : w1.offset ≤ a) (ha2 : w2.offset ≤ a)
    (hb1 : a < w1.offset + w1.data.length) (hb2 : a < w2.offset + w2.data.length) :
    blocksByte (drainFrom ls fuel 0 (SparseBuffer_rewind
        (SparseBuffer_set (SparseBuffer_set SparseBuffer_create w1) w2))) a
      = w2.data[a - w2.offset]? := by
  have hchar := (c8_overlap_iff_touching w2 w1
    (by unfold MemBlock.length; omega) (by unfold MemBlock.length; omega)).mp hov
  unfold MemBlock.length at hchar
  obtain ⟨h21, h12⟩ := hchar
  have hstate : SparseBuffer_rewind (SparseBuffer_set (SparseBuffer_set SparseBuffer_create w1) w2)
      = ⟨0, [Node_addData w1 w2], 0, 0⟩ := by
    have hs1 : SparseBuffer_set SparseBuffer_create w1 = ⟨0, [w1], 0, 0⟩ := rfl
    rw [hs1]
    show SparseBuffer_rewind ⟨0, setGo [w1] w2, 0, 0⟩ = _
    rw [show setGo [w1] w2
        = if overlap w2 w1 then [Node_addData w1 w2]
          else if w1.offset < w2.offset then w1 :: setGo [] w2 else w2 :: [w1] from rfl]
    rw [if_pos hov]
    rfl
  rw [hstate]
  obtain ⟨hMoff, hMlen⟩ := addData_extent w1 w2 h21 h12
  have hMne : (Node_addData w1 w2).data ≠ [] := by
    intro h
    rw [h] at hMlen
    simp only [List.length_nil] at hMlen
    omega
  obtain ⟨f, rfl⟩ : ∃ f, fuel = f + 1 := ⟨fuel - 1, by omega⟩
  rw [drain_rewound ls 0 (Node_addData w1 w2) hMne f 0]
  rw [drain_one_block ls 0 (Node_addData w1 w2) (f + 1) 0 (Node_addData w1 w2).offset a
    (le_refl _) (by omega) (by omega) (by omega)]
  exact addData_overlap_byte w1 w2 h21 a ha1 ha2 hb2

/-- C2 witness: `w1` covers addresses 0 and 1, `w2` covers 1 and 2; after
rewinding, draining with 256-byte reads returns `w2`'s byte 5 at the
overlapping address 1. -/
theorem c2_later_write_wins_witness :
    blocksByte (drainFrom (fun _ => 256) 5 0 (SparseBuffer_rewind
        (SparseBuffer_set (SparseBuffer_set SparseBuffer_create ⟨0, [1, 2]⟩) ⟨1, [5, 6]⟩))) 1
      = (⟨1, [5, 6]⟩ : MemBlock).data[1 - 1]? :=
  c2_later_write_wins ⟨0, [1, 2]⟩ ⟨1, [5, 6]⟩ (fun _ => 256) 5 1
    (by decide) (by decide) (by decide) (by decide)
    (by decide) (by decide) (by decide) (by decide)

/-- Spec-side predicate (spec §8): the blocks are sorted by offset and
pairwise non-touching, i.e. each block ends strictly before the next one
starts. -/
def sortedNonTouching : List MemBlock → Bool
  | [] => true
  | [_] => true
  | b1 :: b2 :: rest =>
    decide (b1.offset + b1.length < b2.offset) && sortedNonTouching (b2 :: rest)

/-- Spec-side: the set of byte addresses covered by one block. -/
def blockAddrs (b : MemBlock) : Finset Nat :=
  (Finset.range b.length).image fun i => b.offset + i

/-- Spec-side: the union of byte addresses written by a sequence of
inserts. -/
def writtenAddrs (ws : List MemBlock) : Finset Nat :=
  ws.foldl (fun acc b => acc ∪ blockAddrs b) ∅

/-- C1 failing input: three separated one-byte blocks, then one insert
spanning all three. -/
def c1Writes : List MemBlock :=
  [⟨0, [1]⟩, ⟨10, [2]⟩, ⟨20, [3]⟩, ⟨0, List.replicate 21 7⟩]

/-- The buffer after the C1 insert sequence. -/
def c1State : SparseBuffer := c1Writes.foldl SparseBuffer_set SparseBuffer_create

/-- C1.  The chain merge of `SparseBuffer_set` re-checks the next neighbor
only once instead of repeating until no merge applies, so an insert that
spans three existing blocks leaves the buffer with two blocks that overlap
(`[0, 21)` and `[20, 21)`), violating the sorted/non-touching invariant,
and `SparseBuffer_size` reports 22 although only 21 distinct byte
addresses were ever written. -/
theorem c1_chain_merge_bug :
    sortedNonTouching c1State.blocks = false ∧
      SparseBuffer_size c1State = 22 ∧
      (writtenAddrs c1Writes).card = 21 := by decide

/-- C9.  Shifting every offset by `Δ` and then by `−Δ` restores every
block's offset (given that the offsets are genuine `size_t` values, below
`2 ^ 64`); a single shift moves the cursor's absolute offset by exactly `Δ`
and leaves the cursor's relative position inside the current block
unchanged (stated over `Int`; the no-wrap bounds say the shifted offsets
stay representable). -/
theorem c9_shift_roundtrip_and_cursor (s : SparseBuffer) (delta : Int)
    (hblocks : ∀ b ∈ s.blocks, b.offset < sizeMod)
    (hcurr : s.curr < (sentBlock s :: s.blocks).length)
    (hoff0 : 0 ≤ (s.offset : Int) + delta)
    (hoff1 : (s.offset : Int) + delta < (sizeMod : Int))
    (hcb0 : 0 ≤ (((sentBlock s :: s.blocks).getD s.curr ⟨0, []⟩).offset : Int) + delta)
    (hcb1 : (((sentBlock s :: s.blocks).getD s.curr ⟨0, []⟩).offset : Int) + delta
      < (sizeMod : Int)) :
    ((SparseBuffer_offset (SparseBuffer_offset s delta) (-delta)).blocks.map
        MemBlock.offset = s.blocks.map MemBlock.offset) ∧
      (((SparseBuffer_offset s delta).offset : Int) = (s.offset : Int) + delta) ∧
      (((SparseBuffer_offset s delta).offset : Int) -
          (((sentBlock (SparseBuffer_offset s delta) ::
              (SparseBuffer_offset s delta).blocks).getD
                (SparseBuffer_offset s delta).curr ⟨0, []⟩).offset : Int) =
        (s.offset : Int) -
          (((sentBlock s :: s.blocks).getD s.curr ⟨0, []⟩).offset : Int)) := by
  have hwrap : ∀ (x : Nat) (d : Int), 0 ≤ (x : Int) + d → (x : Int) + d < (sizeMod : Int) →
      wrapAdd x d = ((x : Int) + d).toNat := by
    intro x d h0 h1
    unfold wrapAdd
    rw [Int.emod_eq_of_lt h0 h1]
  have hround : ∀ x : Nat, x < sizeMod → wrapAdd (wrapAdd x delta) (-delta) = x := by
    intro x hx
    unfold wrapAdd
    have hM : (0 : Int) < (sizeMod : Int) := by
      have h : (0 : Nat) < sizeMod := Nat.pos_pow_of_pos 64 (by omega)
      exact_mod_cast h
    have h0 : 0 ≤ ((x : Int) + delta) % (sizeMod : Int) := Int.emod_nonneg _ (by omega)
    rw [Int.toNat_of_nonneg h0, Int.emod_add_emod, add_neg_cancel_right,
      Int.emod_eq_of_lt (by omega) (by exact_mod_cast hx), Int.toNat_natCast]
  have hgetD : ∀ (L : List MemBlock) (f : MemBlock → MemBlock) (n : Nat), n < L.length →
      (L.map f).getD n ⟨0, []⟩ = f (L.getD n ⟨0, []⟩) := by
    intro L f n hn
    rw [List.getD_eq_getElem?_getD, List.getD_eq_getElem?_getD, List.getElem?_map,
      List.getElem?_eq_getElem hn]
    simp
  refine ⟨?_, ?_, ?_⟩
  · unfold SparseBuffer_offset
    simp only [List.map_map]
    refine List.map_congr_left fun b hb => ?_
    simp only [Function.comp_apply]
    exact hround b.offset (hblocks b hb)
  · rw [show (SparseBuffer_offset s delta).offset = wrapAdd s.offset delta from rfl,
      hwrap s.offset delta hoff0 hoff1, Int.toNat_of_nonneg hoff0]
  · have hlist : sentBlock (SparseBuffer_offset s delta) ::
        (SparseBuffer_offset s delta).blocks
        = (sentBlock s :: s.blocks).map fun b => { b with offset := wrapAdd b.offset delta } := rfl
    have hcurrEq : (SparseBuffer_offset s delta).curr = s.curr := rfl
    rw [hlist, hcurrEq, hgetD _ _ _ hcurr]
    dsimp only
    rw [show (SparseBuffer_offset s delta).offset = wrapAdd s.offset delta from rfl,
      hwrap s.offset delta hoff0 hoff1, hwrap _ delta hcb0 hcb1,
      Int.toNat_of_nonneg hoff0, Int.toNat_of_nonneg hcb0]
    ring

/-- C10.  When the cursor sits strictly inside the current block, a read
of length 0 is not a no-op: it returns the whole remaining portion of that
block — from the cursor to the block's end, a nonempty byte sequence — and
advances the cursor offset past the block's end. -/
theorem c10_read_zero_reads_rest_of_block (s : SparseBuffer) (m : MemBlock)
    (hget : (sentBlock s :: s.blocks).get? s.curr = some m)
    (hlo : m.offset ≤ s.offset) (hhi : s.offset < m.offset + m.length) :
    SparseBuffer_read s 0 =
        (⟨s.offset, m.data.drop (s.offset - m.offset)⟩,
          { s with offset := m.offset + m.length }) ∧
      (m.data.drop (s.offset - m.offset)).length = m.offset + m.length - s.offset ∧
      m.data.drop (s.offset - m.offset) ≠ [] := by
  have hdroplen : (m.data.drop (s.offset - m.offset)).length
      = m.offset + m.length - s.offset := by
    rw [List.length_drop]
    unfold MemBlock.length at hhi ⊢
    omega
  refine ⟨?_, hdroplen, ?_⟩
  · unfold SparseBuffer_read
    rw [hget]
    simp only [if_neg (by omega : ¬ m.offset + m.length ≤ s.offset)]
    unfold readCore
    have hrl : readLen m s.offset 0 = m.offset + m.length - s.offset := by
      unfold readLen
      rw [if_pos (Or.inl rfl)]
    rw [hrl]
    have htake : (m.data.drop (s.offset - m.offset)).take (m.offset + m.length - s.offset)
        = m.data.drop (s.offset - m.offset) :=
      List.take_of_length_le (by rw [hdroplen])
    rw [htake]
    refine Prod.ext rfl ?_
    show ({ s with curr := s.curr, offset := s.offset + (m.offset + m.length - s.offset) }
        : SparseBuffer) = { s with offset := m.offset + m.length }
    have : s.offset + (m.offset + m.length - s.offset) = m.offset + m.length := by omega
    rw [this]
  · intro hnil
    rw [hnil] at hdroplen
    simp only [List.length_nil] at hdroplen
    omega

/-- C10 witness: cursor one byte into a three-byte block; the zero-length
read returns the remaining two bytes and moves the cursor to the end. -/
theorem c10_read_zero_reads_rest_of_block_witness :
    SparseBuffer_read ⟨0, [⟨5, [9, 8, 7]⟩], 1, 6⟩ 0 =
        (⟨6, (⟨5, [9, 8, 7]⟩ : MemBlock).data.drop (6 - 5)⟩,
          { (⟨0, [⟨5, [9, 8, 7]⟩], 1, 6⟩ : SparseBuffer) with offset := 5 + 3 }) ∧
      ((⟨5, [9, 8, 7]⟩ : MemBlock).data.drop (6 - 5)).length = 5 + 3 - 6 ∧
      (⟨5, [9, 8, 7]⟩ : MemBlock).data.drop (6 - 5) ≠ [] :=
  c10_read_zero_reads_rest_of_block ⟨0, [⟨5, [9, 8, 7]⟩], 1, 6⟩ ⟨5, [9, 8, 7]⟩
    (by decide) (by decide) (by decide)

/-- C9 witness: a two-block buffer shifted by 5. -/
theorem c9_shift_roundtrip_and_cursor_witness :
    ((SparseBuffer_offset (SparseBuffer_offset ⟨0, [⟨3, [1]⟩, ⟨9, [2, 2]⟩], 1, 4⟩ 5) (-5)).blocks.map
        MemBlock.offset = [⟨3, [1]⟩, ⟨9, [2, 2]⟩].map MemBlock.offset) ∧
      (((SparseBuffer_offset ⟨0, [⟨3, [1]⟩, ⟨9, [2, 2]⟩], 1, 4⟩ 5).offset : Int) = (4 : Int) + 5) ∧
      (((SparseBuffer_offset ⟨0, [⟨3, [1]⟩, ⟨9, [2, 2]⟩], 1, 4⟩ 5).offset : Int) -
          (((sentBlock (SparseBuffer_offset ⟨0, [⟨3, [1]⟩, ⟨9, [2, 2]⟩], 1, 4⟩ 5) ::
              (SparseBuffer_offset ⟨0, [⟨3, [1]⟩, ⟨9, [2, 2]⟩], 1, 4⟩ 5).blocks).getD
                (SparseBuffer_offset ⟨0, [⟨3, [1]⟩, ⟨9, [2, 2]⟩], 1, 4⟩ 5).curr ⟨0, []⟩).offset : Int) =
        ((4 : Nat) : Int) -
          (((sentBlock ⟨0, [⟨3, [1]⟩, ⟨9, [2, 2]⟩], 1, 4⟩ ::
              (⟨0, [⟨3, [1]⟩, ⟨9, [2, 2]⟩], 1, 4⟩ : SparseBuffer).blocks).getD
                (⟨0, [⟨3, [1]⟩, ⟨9, [2, 2]⟩], 1, 4⟩ : SparseBuffer).curr ⟨0, []⟩).offset : Int)) :=
  c9_shift_roundtrip_and_cursor ⟨0, [⟨3, [1]⟩, ⟨9, [2, 2]⟩], 1, 4⟩ 5
    (by decide) (by decide) (by decide) (by decide) (by decide) (by decide)

/-- The read-exact loop of `serial.c` (`serialRead`), embedded over an
explicit trace of results of the underlying `read` system call: a positive
result delivers that many bytes (`n -= result`, a `size_t` subtraction,
hence the wrap modulo `sizeMod`), a negative result prints an error and
returns `false`, and a zero result (e.g. a `VTIME` timeout that delivered
nothing) falls through and the loop simply calls `read` again.  `some b`
means the C loop returns `b` within the trace; `none` means the loop is
still running when the trace is exhausted. -/
def serialReadLoop : List Int → Nat → Option Bool
  | _, 0 => some true
  | [], _ + 1 => none
  | r :: rs, n + 1 =>
    if 0 < r then serialReadLoop rs ((((n : Int) + 1 - r) % (sizeMod : Int)).toNat)
    else if r < 0 then some false
    else serialReadLoop rs (n + 1)

/-- With nothing left to read the loop exits at once with success. -/
theorem serialReadLoop_zero (rs : List Int) : serialReadLoop rs 0 = some true := by
  cases rs <;> rfl

/-- C3 counterexample.  A short read is not treated as an error: after the
device yields 0 bytes (a timeout) for a 1-byte request, `serialRead` has
not returned `false` — it is still looping (`none` on the 1-element
trace), and if a later `read` delivers the byte it returns `true`. -/
theorem c3_short_read_not_error :
    serialReadLoop [0, 1] 1 = some true ∧ serialReadLoop [0] 1 = none := by
  constructor <;> rfl

/-- C3 amended.  `serialRead` returns `true` once the reads have delivered
exactly the requested bytes and `false` only when a `read` fails with a
negative result; a `read` that delivers 0 bytes is retried — indefinitely
while the device keeps delivering nothing — and is never an error. -/
theorem c3_amended_serialRead :
    (∀ rs : List Int, serialReadLoop rs 0 = some true) ∧
      (∀ (r : Int) (rs : List Int) (n : Nat), r < 0 →
        serialReadLoop (r :: rs) (n + 1) = some false) ∧
      (∀ (rs : List Int) (n : Nat),
        serialReadLoop ((0 : Int) :: rs) (n + 1) = serialReadLoop rs (n + 1)) ∧
      (∀ (k n : Nat), serialReadLoop (List.replicate k 0) (n + 1) = none) ∧
      (∀ (r : Int) (rs : List Int) (n : Nat), 0 < r → r.toNat = n + 1 →
        serialReadLoop (r :: rs) (n + 1) = some true) := by
  have hzero : ∀ (rs : List Int) (n : Nat),
      serialReadLoop ((0 : Int) :: rs) (n + 1) = serialReadLoop rs (n + 1) := by
    intro rs n
    show (if (0 : Int) < 0 then _ else if (0 : Int) < 0 then _ else
      serialReadLoop rs (n + 1)) = serialReadLoop rs (n + 1)
    rw [if_neg (by omega), if_neg (by omega)]
  refine ⟨serialReadLoop_zero, ?_, hzero, ?_, ?_⟩
  · intro r rs n hr
    show (if 0 < r then _ else if r < 0 then some false else _) = some false
    rw [if_neg (by omega), if_pos hr]
  · intro k
    induction k with
    | zero => intro n; rfl
    | succ k ih =>
      intro n
      rw [List.replicate_succ, hzero]
      exact ih n
  · intro r rs n hr he
    show (if 0 < r then serialReadLoop rs ((((n : Int) + 1 - r) % (sizeMod : Int)).toNat)
      else _) = some true
    rw [if_pos hr]
    have h0 : (n : Int) + 1 - r = 0 := by omega
    rw [h0, Int.zero_emod]
    exact serialReadLoop_zero rs

/-- C3 amended witness: a failing read errors out, three timeouts leave the
loop running, one full read succeeds. -/
theorem c3_amended_serialRead_witness :
    serialReadLoop [(-1 : Int)] 1 = some false ∧
      serialReadLoop (List.replicate 3 0) 2 = none ∧
      serialReadLoop [(2 : Int)] 2 = some true :=
  ⟨c3_amended_serialRead.2.1 (-1) [] 0 (by decide),
    c3_amended_serialRead.2.2.2.1 3 1,
    c3_amended_serialRead.2.2.2.2 2 [] 1 (by decide) (by decide)⟩

/-- The retry loop of `stmConnect` (`stm32sprog.c`), embedded over an
acknowledgement oracle: `acks i` tells whether the reply byte read after
the `i`-th send of 0x7F is ACK (0x79).  `fuel` counts the sends still
allowed (`MAX_RETRIES − retries`); the do-while body first bumps the retry
counter and gives up when it exceeds `MAX_RETRIES = 10`, then sends one
0x7F.  The result pairs the success flag with the total number of 0x7F
sends performed. -/
def stmConnectAux (acks : Nat → Bool) : Nat → Nat → Bool × Nat
  | 0, sends => (false, sends)
  | fuel + 1, sends =>
    if acks sends then (true, sends + 1) else stmConnectAux acks fuel (sends + 1)

/-- `stmConnect`: up to `MAX_RETRIES = 10` sends of the 0x7F autobaud
byte, starting with no sends performed. -/
def stmConnect (acks : Nat → Bool) : Bool × Nat := stmConnectAux acks 10 0

/-- If the reply is ACK after the send numbered `sends + k` (with `k`
failures remaining in budget), the loop succeeds having sent `k + 1` more
bytes. -/
theorem stmConnectAux_succeeds (acks : Nat → Bool) :
    ∀ fuel sends k, k < fuel → (∀ i, i < k → acks (sends + i) = false) →
      acks (sends + k) = true → stmConnectAux acks fuel sends = (true, sends + k + 1) := by
  intro fuel
  induction fuel with
  | zero => intro sends k hk; exact absurd hk (by omega)
  | succ fuel ih =>
    intro sends k hk hf ht
    show (if acks sends then (true, sends + 1)
      else stmConnectAux acks fuel (sends + 1)) = (true, sends + k + 1)
    by_cases h0 : k = 0
    · subst h0
      rw [if_pos (by simpa using ht)]
    · rw [if_neg (by simp only [Bool.not_eq_true]; simpa using hf 0 (by omega))]
      have heq : sends + 1 + (k - 1) + 1 = sends + k + 1 := by omega
      rw [← heq]
      exact ih (sends + 1) (k - 1) (by omega)
        (fun i hi => by
          have := hf (i + 1) (by omega)
          simpa [Nat.add_assoc, Nat.add_comm 1 i] using this)
        (by
          have : sends + 1 + (k - 1) = sends + k := by omega
          rw [this]
          exact ht)

/-- If every reply in the remaining budget is a failure, the loop exhausts
the budget and fails. -/
theorem stmConnectAux_fails (acks : Nat → Bool) :
    ∀ fuel sends, (∀ i, i < fuel → acks (sends + i) = false) →
      stmConnectAux acks fuel sends = (false, sends + fuel) := by
  intro fuel
  induction fuel with
  | zero => intro sends hf; rfl
  | succ fuel ih =>
    intro sends hf
    show (if acks sends then (true, sends + 1)
      else stmConnectAux acks fuel (sends + 1)) = (false, sends + (fuel + 1))
    rw [if_neg (by simp only [Bool.not_eq_true]; simpa using hf 0 (by omega))]
    have heq : sends + 1 + fuel = sends + (fuel + 1) := by omega
    rw [← heq]
    exact ih (sends + 1) fun i hi => by
      have := hf (i + 1) (by omega)
      simpa [Nat.add_assoc, Nat.add_comm 1 i] using this

/-- C5 counterexample.  When the target never answers ACK, `stmConnect`
fails after exactly 10 sends of 0x7F — there is no 11th attempt, so the
failure does not come "after the 11th failed attempt". -/
theorem c5_handshake_counterexample :
    stmConnect (fun _ => false) = (false, 10) ∧
      (stmConnect (fun _ => false)).2 ≠ 11 := by
  constructor <;> decide

/-- C5 amended.  If the first reply is ACK the handshake succeeds after a
single send (no retry); in general, with `k < 10` leading failures
followed by an ACK it succeeds after `k + 1` sends; and if the first 10
replies all fail it gives up — `NotDetected` — after the 10th failed
attempt (10 sends in total, not 11). -/
theorem c5_handshake_amended :
    (∀ acks : Nat → Bool, acks 0 = true → stmConnect acks = (true, 1)) ∧
      (∀ (acks : Nat → Bool) (k : Nat), k < 10 → (∀ i, i < k → acks i = false) →
        acks k = true → stmConnect acks = (true, k + 1)) ∧
      (∀ acks : Nat → Bool, (∀ i, i < 10 → acks i = false) →
        stmConnect acks = (false, 10)) := by
  refine ⟨?_, ?_, ?_⟩
  · intro acks h
    exact stmConnectAux_succeeds acks 10 0 0 (by omega) (fun i hi => absurd hi (by omega)) h
  · intro acks k hk hf ht
    have h := stmConnectAux_succeeds acks 10 0 k hk
      (fun i hi => by simpa using hf i hi) (by simpa using ht)
    simpa using h
  · intro acks hf
    have h := stmConnectAux_fails acks 10 0 fun i hi => by simpa using hf i hi
    simpa using h

/-- C5 amended witness: two failures then an ACK gives success after 3
sends; an always-failing target gives up after 10 sends. -/
theorem c5_handshake_amended_witness :
    stmConnect (fun i => decide (i = 2)) = (true, 3) ∧
      stmConnect (fun _ => false) = (false, 10) :=
  ⟨c5_handshake_amended.2.1 (fun i => decide (i = 2)) 2 (by decide)
      (fun i hi => by interval_cases i <;> decide) (by decide),
    c5_handshake_amended.2.2 (fun _ => false) fun i hi => rfl⟩

/-- One `uint8_t` XOR accumulation step (`checksum ^= byte`). -/
def xorByte (c b : Nat) : Nat := (Nat.xor c b) % 256

/-- The byte sequence emitted by `stmSendBlock` (`stm32sprog.c`) for one
write data-block frame, in send order: the length byte
`n = (uint8_t)(size + padding - 1)`, the payload, `padding` filler bytes
0xFF (each XOR-ed into the running checksum as it is sent), and the final
checksum byte.  The checksum starts at `n` and folds in the payload bytes
and the fillers, each step in `uint8_t`. -/
def stmSendBlockFrame (buffer : List Nat) : List Nat :=
  let size := buffer.length
  let padding := (4 - size % 4) % 4
  let n := (size + padding - 1) % 256
  let checksum := buffer.foldl xorByte n
  let fillers := List.replicate padding 255
  n :: buffer ++ fillers ++ [fillers.foldl xorByte checksum]

/-- XOR of two bytes is a byte. -/
theorem xor_lt_256 {a b : Nat} (ha : a < 256) (hb : b < 256) : Nat.xor a b < 256 := by
  have h := @Nat.xor_lt_two_pow a b 8 (by omega) (by omega)
  exact lt_of_lt_of_le h (by norm_num)

/-- A fold of XOR steps over bytes starting from a byte never needs the
`uint8_t` truncation. -/
theorem foldl_xorByte_eq_xor (l : List Nat) :
    ∀ c, c < 256 → (∀ b ∈ l, b < 256) → l.foldl xorByte c = l.foldl Nat.xor c := by
  induction l with
  | nil => intro c _ _; rfl
  | cons b l ih =>
    intro c hc hl
    have hb : b < 256 := hl b (List.mem_cons_self b l)
    show l.foldl xorByte (xorByte c b) = l.foldl Nat.xor (Nat.xor c b)
    rw [show xorByte c b = Nat.xor c b from Nat.mod_eq_of_lt (xor_lt_256 hc hb)]
    exact ih (Nat.xor c b) (xor_lt_256 hc hb) fun x hx => hl x (List.mem_cons_of_mem b hx)

/-- A fold of Nat XOR over bytes starting from a byte yields a byte. -/
theorem foldl_xor_lt_256 (l : List Nat) :
    ∀ c, c < 256 → (∀ b ∈ l, b < 256) → l.foldl Nat.xor c < 256 := by
  induction l with
  | nil => intro c hc _; exact hc
  | cons b l ih =>
    intro c hc hl
    exact ih (Nat.xor c b) (xor_lt_256 hc (hl b (List.mem_cons_self b l)))
      fun x hx => hl x (List.mem_cons_of_mem b hx)

/-- C6.  For every payload of `size` bytes with `1 ≤ size ≤ 256`, the
emitted frame is the length byte `N = size + pad − 1` with
`pad = (4 − size mod 4) mod 4`, the payload, `pad` fillers of value 0xFF,
and one checksum byte equal to the XOR of `N`, all payload bytes and all
filler bytes. -/
theorem c6_write_block_frame (buffer : List Nat)
    (h1 : 1 ≤ buffer.length) (h2 : buffer.length ≤ 256)
    (hb : ∀ b ∈ buffer, b < 256) :
    stmSendBlockFrame buffer =
      (buffer.length + (4 - buffer.length % 4) % 4 - 1) :: buffer ++
        List.replicate ((4 - buffer.length % 4) % 4) 255 ++
        [(buffer ++ List.replicate ((4 - buffer.length % 4) % 4) 255).foldl Nat.xor
          (buffer.length + (4 - buffer.length % 4) % 4 - 1)] := by
  have hn : buffer.length + (4 - buffer.length % 4) % 4 - 1 < 256 := by omega
  have hmod : (buffer.length + (4 - buffer.length % 4) % 4 - 1) % 256
      = buffer.length + (4 - buffer.length % 4) % 4 - 1 := Nat.mod_eq_of_lt hn
  have hfill : ∀ b ∈ List.replicate ((4 - buffer.length % 4) % 4) (255 : Nat), b < 256 := by
    intro b hbmem
    rw [List.eq_of_mem_replicate hbmem]
    omega
  simp only [stmSendBlockFrame, hmod]
  rw [foldl_xorByte_eq_xor buffer _ hn hb,
    foldl_xorByte_eq_xor _ _ (foldl_xor_lt_256 buffer _ hn hb) hfill,
    ← List.foldl_append]

/-- C6 witness: a 2-byte payload gets 2 fillers, length byte 3 and
checksum 3 XOR 0x11 XOR 0x22 XOR 0xFF XOR 0xFF = 0x30. -/
theorem c6_write_block_frame_witness :
    stmSendBlockFrame [0x11, 0x22] =
      (2 + (4 - 2 % 4) % 4 - 1) :: [0x11, 0x22] ++
        List.replicate ((4 - 2 % 4) % 4) 255 ++
        [([0x11, 0x22] ++ List.replicate ((4 - 2 % 4) % 4) 255).foldl Nat.xor
          (2 + (4 - 2 % 4) % 4 - 1)] :=
  c6_write_block_frame [0x11, 0x22] (by decide) (by decide)
    (by intro b hbm; fin_cases hbm <;> omega)

/-- The two bytes of a command frame sent by `stmSendByte`: the opcode and
its `uint8_t` complement. -/
def stmSendByteTrace (b : Nat) : List Nat := [b % 256, 255 - b % 256]

/-- Big-endian bytes of a `uint16_t` as emitted by `serialWrite16`. -/
def write16Bytes (x : Nat) : List Nat := [x / 256 % 256, x % 256]

/-- The erase-pages command of `stm32sprog.c` (`stmEraseFlashPages`),
embedded as a function from the advertised command set (`eraseSup` for
legacy ERASE 0x43, `eeSup` for EXTENDED_ERASE 0x44) and the `uint16_t`
arguments to the outcome and the full byte trace written to the serial
device, under an oracle in which the target ACKs every frame.  A zero
count succeeds with no I/O; the legacy branch rejects
`first > 255 || first + count - 1 > 255` and the extended branch rejects
`count > 0xFFF0` before anything is sent.  `none` models the source's
non-termination: the page loops step a `uint8_t` (legacy) or `uint16_t`
(extended) counter that wraps before reaching `first + count` when that
sum exceeds the counter's range, so the loop never exits. -/
def stmEraseFlashPagesModel (eraseSup eeSup : Bool) (first count : Nat) :
    Option (Bool × List Nat) :=
  if count = 0 then some (true, [])
  else if eraseSup then
    if first > 255 ∨ first + count - 1 > 255 then some (false, [])
    else if 256 ≤ first + count then none
    else
      let countByte := (count - 1) % 256
      let pages := (List.range count).map fun i => first + i
      some (true, stmSendByteTrace 0x43 ++ countByte :: (pages ++ [pages.foldl xorByte countByte]))
  else if eeSup then
    if count > 0xFFF0 then some (false, [])
    else if 65536 ≤ first + count then none
    else
      let countBytes := write16Bytes (count - 1)
      let pageBytes := ((List.range count).map fun i => write16Bytes (first + i)).flatten
      some (true, stmSendByteTrace 0x44 ++ countBytes ++ pageBytes ++
        [(countBytes ++ pageBytes).foldl xorByte 0])
  else some (false, [])

/-- C7.  `stmEraseFlashPages` returns success without any serial I/O when
the count is 0; with a nonzero count it uses legacy ERASE (frame starting
0x43 0xBC) when advertised, else EXTENDED_ERASE (frame starting 0x44
0xBB), else fails with no I/O; and it rejects out-of-range counts — more
than 256 pages for legacy, more than 0xFFF0 for extended — with an error
before sending anything. -/
theorem c7_erase_pages_policy :
    (∀ (e ee : Bool) (first : Nat), stmEraseFlashPagesModel e ee first 0 = some (true, [])) ∧
      (∀ (first count : Nat), 0 < count →
        stmEraseFlashPagesModel false false first count = some (false, [])) ∧
      (∀ (ee : Bool) (first count : Nat), 256 < count →
        stmEraseFlashPagesModel true ee first count = some (false, [])) ∧
      (∀ (first count : Nat), 0xFFF0 < count →
        stmEraseFlashPagesModel false true first count = some (false, [])) ∧
      (∀ (ee : Bool) (first count : Nat), 0 < count → first + count ≤ 255 →
        ∃ t, stmEraseFlashPagesModel true ee first count = some (true, 0x43 :: 0xBC :: t)) ∧
      (∀ (first count : Nat), 0 < count → count ≤ 0xFFF0 → first + count ≤ 65535 →
        ∃ t, stmEraseFlashPagesModel false true first count
          = some (true, 0x44 :: 0xBB :: t)) := by
  refine ⟨?_, ?_, ?_, ?_, ?_, ?_⟩
  · intro e ee first
    rfl
  · intro first count hc
    simp [stmEraseFlashPagesModel, show ¬ count = 0 from by omega]
  · intro ee first count hc
    simp [stmEraseFlashPagesModel, show ¬ count = 0 from by omega,
      show first > 255 ∨ first + count - 1 > 255 from Or.inr (by omega)]
  · intro first count hc
    simp [stmEraseFlashPagesModel, show ¬ count = 0 from by omega,
      show count > 65520 from hc]
  · intro ee first count hc hr
    refine ⟨((count - 1) % 256) :: (((List.range count).map fun i => first + i) ++
      [((List.range count).map fun i => first + i).foldl xorByte ((count - 1) % 256)]), ?_⟩
    simp [stmEraseFlashPagesModel, stmSendByteTrace, show ¬ count = 0 from by omega,
      show ¬ (first > 255 ∨ first + count - 1 > 255) from by omega,
      show ¬ 256 ≤ first + count from by omega]
  · intro first count hc hr hs
    refine ⟨(write16Bytes (count - 1) ++
      ((((List.range count).map fun i => write16Bytes (first + i)).flatten) ++
        [(write16Bytes (count - 1) ++
          ((List.range count).map fun i => write16Bytes (first + i)).flatten).foldl xorByte 0])), ?_⟩
    simp [stmEraseFlashPagesModel, stmSendByteTrace, show ¬ count = 0 from by omega,
      show ¬ count > 65520 from by omega,
      show ¬ 65536 ≤ first + count from by omega]

/-- C7 witness: zero count with no commands advertised still succeeds with
no I/O; neither command advertised fails; count 300 on legacy fails; count
0xFFF1 on extended fails; legacy erase of 3 pages from 0 starts 0x43 0xBC;
extended erase of 1 page from 2 starts 0x44 0xBB. -/
theorem c7_erase_pages_policy_witness :
    stmEraseFlashPagesModel false false 7 0 = some (true, []) ∧
      stmEraseFlashPagesModel false false 0 5 = some (false, []) ∧
      stmEraseFlashPagesModel true true 0 300 = some (false, []) ∧
      stmEraseFlashPagesModel false true 0 65521 = some (false, []) ∧
      (∃ t, stmEraseFlashPagesModel true true 0 3 = some (true, 0x43 :: 0xBC :: t)) ∧
      (∃ t, stmEraseFlashPagesModel false true 2 1 = some (true, 0x44 :: 0xBB :: t)) :=
  ⟨c7_erase_pages_policy.1 false false 7,
    c7_erase_pages_policy.2.1 0 5 (by decide),
    c7_erase_pages_policy.2.2.1 true 0 300 (by decide),
    c7_erase_pages_policy.2.2.2.1 0 65521 (by decide),
    c7_erase_pages_policy.2.2.2.2.1 true 0 3 (by decide) (by decide),
    c7_erase_pages_policy.2.2.2.2.2 2 1 (by decide) (by decide) (by decide)⟩

/-- The erase-page count computed by `main` (`stm32sprog.c`) when writing
without `-e`: `uint16_t numPages = (fileSize + flashPageSize) /
flashPageSize`, passed to `stmEraseFlashPages(0, numPages)`.  The pair is
(first page, page count) of that call. -/
def mainEraseArgs (fileSize pageSize : Nat) : Nat × Nat :=
  (0, ((fileSize + pageSize) / pageSize) % 65536)

/-- C4 counterexample.  For a 1024-byte image on a 1024-byte-page device
the orchestrator erases 2 pages although `ceil(1024 / 1024) = 1`: the
count is one too many whenever the page size divides the image size. -/
theorem c4_erase_count_counterexample :
    (mainEraseArgs 1024 1024).2 = 2 ∧
      (1024 + 1024 - 1) / 1024 = 1 ∧
      (mainEraseArgs 1024 1024).2 ≠ (1024 + 1024 - 1) / 1024 := by
  constructor
  · rfl
  · constructor <;> decide

/-- C4 amended.  Writing without `-e`, the orchestrator erases pages
starting at page 0, and the count is `fileSize / pageSize + 1` (taken
`mod 2 ^ 16`): that equals `ceil(fileSize / pageSize)` exactly when the
page size does not divide the image size, and is one more than the ceiling
when it does. -/
theorem c4_erase_count_amended (s p : Nat) (hp : 0 < p) (hlt : s / p + 1 < 65536) :
    (mainEraseArgs s p).1 = 0 ∧
      (mainEraseArgs s p).2 = s / p + 1 ∧
      (¬ p ∣ s → (mainEraseArgs s p).2 = (s + p - 1) / p) ∧
      (p ∣ s → (mainEraseArgs s p).2 = (s + p - 1) / p + 1) := by
  have hdiv : (s + p) / p = s / p + 1 := Nat.add_div_right s hp
  have h2 : (mainEraseArgs s p).2 = s / p + 1 := by
    show ((s + p) / p) % 65536 = s / p + 1
    rw [hdiv, Nat.mod_eq_of_lt hlt]
  have hdm := Nat.div_add_mod s p
  have hmlt : s % p < p := Nat.mod_lt s hp
  refine ⟨rfl, h2, ?_, ?_⟩
  · intro hnd
    have hr : s % p ≠ 0 := fun h => hnd (Nat.dvd_of_mod_eq_zero h)
    have hceil : (s + p - 1) / p = s / p + 1 := by
      have hx : p * (s / p + 1) = p * (s / p) + p := by ring
      have hrw : s + p - 1 = p * (s / p + 1) + (s % p - 1) := by omega
      rw [hrw, Nat.mul_add_div hp, Nat.div_eq_of_lt (show s % p - 1 < p from by omega)]
    rw [h2, hceil]
  · intro hd
    obtain ⟨k, hk⟩ := hd
    have hr : s % p = 0 := by rw [hk]; exact Nat.mul_mod_right p k
    have hceil : (s + p - 1) / p = s / p := by
      have hrw : s + p - 1 = p * (s / p) + (p - 1) := by omega
      rw [hrw, Nat.mul_add_div hp, Nat.div_eq_of_lt (show p - 1 < p from by omega)]
      omega
    rw [h2, hceil]

/-- C4 amended witness: a 1500-byte image on 1024-byte pages erases
`1500 / 1024 + 1 = 2` pages starting at page 0, which is the ceiling. -/
theorem c4_erase_count_amended_witness :
    (mainEraseArgs 1500 1024).1 = 0 ∧
      (mainEraseArgs 1500 1024).2 = 1500 / 1024 + 1 ∧
      (¬ 1024 ∣ 1500 → (mainEraseArgs 1500 1024).2 = (1500 + 1024 - 1) / 1024) ∧
      (1024 ∣ 1500 → (mainEraseArgs 1500 1024).2 = (1500 + 1024 - 1) / 1024 + 1) :=
  c4_erase_count_amended 1500 1024 (by decide) (by decide)
